import Mathlib

/-!
Verification development for the openMM matchmaking and rating engine
(`helper.py` and `bot.py`). Python dictionaries with distinct keys are
modelled as a key list (iteration order = insertion order) together with a
value function; Python `int` is `Int`; fallible paths return explicit
outcome types.
-/

namespace OpenMM

/-! ## helper.py: getTeams (TeamBalancer.Balance)

`eloData : dict player → elo` is modelled as `players : List Nat` (the keys in
iteration order) plus `elo : Nat → Int` (the values). -/

/-- `itertools.combinations(l, k)`: all `k`-element subsequences of `l`, in
lexicographic order of positions (helper.py:45). -/
def combinations : Nat → List Nat → List (List Nat)
  | 0, _ => [[]]
  | _ + 1, [] => []
  | k + 1, x :: xs => (combinations k xs).map (fun c => x :: c) ++ combinations (k + 1) xs

/-- `tuple(sorted(set(players) - set(team1)))` (helper.py:52): the members of
`players` not in `t1`, deduplicated and sorted ascending. -/
def complement (players t1 : List Nat) : List Nat :=
  List.insertionSort (· ≤ ·) ((players.dedup).filter (fun p => p ∉ t1))

/-- Lexicographic strict order on tuples of ids (Python tuple `<`). -/
def lexLt : List Nat → List Nat → Bool
  | [], [] => false
  | [], _ :: _ => true
  | _ :: _, [] => false
  | a :: as, b :: bs => if a < b then true else if b < a then false else lexLt as bs

/-- `tuple(sorted([team1, team2]))` (helper.py:53): the two team tuples as an
ordered pair, smaller (Python tuple order) first; `sorted` on a two-element
list swaps exactly when the second compares strictly below the first. -/
def matchupKey (t1 t2 : List Nat) : List Nat × List Nat :=
  if lexLt t2 t1 then (t2, t1) else (t1, t2)

/-- The returned matchup (helper.py:65-71). The Python dict also carries
`eloRedTeam`/`eloBlueTeam`, which are the restrictions of the input `eloData`
to the two teams and hence recoverable from the teams and the elo function. -/
structure Matchup where
  redTeam : List Nat
  blueTeam : List Nat
  eloDifference : Int
deriving DecidableEq, Repr

/-- `abs(sum(eloRed.values()) - sum(eloBlue.values()))` (helper.py:61). -/
def teamDiff (elo : Nat → Int) (t1 t2 : List Nat) : Int :=
  |((t1.map elo).sum - (t2.map elo).sum)|

/-- `diff < smallestDiff` where `smallestDiff` starts as `float('inf')`
(helper.py:49,63): `none` is the initial infinity. -/
def ltInf (d : Int) : Option Int → Bool
  | none => true
  | some s => d < s

/-- The matchup candidate built from side-A tuple `c` (helper.py:65-71). -/
def mkMatchup (elo : Nat → Int) (players : List Nat) (c : List Nat) : Matchup :=
  ⟨c, complement players c, teamDiff elo c (complement players c)⟩

/-- The loop of helper.py:51-71 over the remaining combinations, carrying the
`seen` key set, the best matchup so far and the smallest difference so far. -/
def getTeamsAux (elo : Nat → Int) (players : List Nat) :
    List (List Nat) → List (List Nat × List Nat) → Option Matchup → Option Int → Option Matchup
  | [], _, best, _ => best
  | t1 :: rest, seen, best, smallest =>
    let t2 := complement players t1
    let k := matchupKey t1 t2
    if k ∈ seen then getTeamsAux elo players rest seen best smallest
    else
      let d := teamDiff elo t1 t2
      if ltInf d smallest then
        getTeamsAux elo players rest (k :: seen) (some (mkMatchup elo players t1)) (some d)
      else
        getTeamsAux elo players rest (k :: seen) best smallest

/-- `getTeams(eloData)` (helper.py:36-73): enumerate all choices of
`len(players) // 2` players for side A, deduplicate against complements, and
keep the first candidate attaining the smallest sum difference. -/
def getTeams (elo : Nat → Int) (players : List Nat) : Option Matchup :=
  getTeamsAux elo players (combinations (players.length / 2) players) [] none none

example : getTeams (fun p => (p : Int)) [1, 2, 3] = some ⟨[3], [1, 2], 0⟩ := by decide

example : getTeams (fun p => if p = 1 then 120 else if p = 4 then 80 else 100) [1, 2, 3, 4] =
    some ⟨[1, 4], [2, 3], 0⟩ := by decide

/-! ### Facts about the balancing loop -/

/-- The dedup key of the candidate with side A equal to `c`. -/
def keyOf (players c : List Nat) : List Nat × List Nat :=
  matchupKey c (complement players c)

/-- The sum difference of the candidate with side A equal to `c`. -/
def diffOf (elo : Nat → Int) (players c : List Nat) : Int :=
  teamDiff elo c (complement players c)

lemma matchupKey_pair_eq {a b a' b' : List Nat} (h : matchupKey a b = matchupKey a' b') :
    (a = a' ∧ b = b') ∨ (a = b' ∧ b = a') := by
  unfold matchupKey at h
  split at h <;> split at h <;> simp only [Prod.mk.injEq] at h <;> tauto

lemma diffOf_eq_of_keyOf_eq (elo : Nat → Int) (players : List Nat) {c c' : List Nat}
    (h : keyOf players c = keyOf players c') :
    diffOf elo players c = diffOf elo players c' := by
  rcases matchupKey_pair_eq h with ⟨h1, h2⟩ | ⟨h1, h2⟩
  · unfold diffOf teamDiff
    rw [h1]
  · unfold diffOf teamDiff
    rw [h2, h1, abs_sub_comm]

lemma mem_combinations (l : List Nat) : ∀ (k : Nat) (c : List Nat),
    c ∈ combinations k l ↔ c.Sublist l ∧ c.length = k := by
  induction l with
  | nil =>
    intro k c
    cases k with
    | zero =>
      simp [combinations, List.sublist_nil, List.length_eq_zero]
    | succ k =>
      simp only [combinations, List.not_mem_nil, false_iff, not_and, List.sublist_nil]
      rintro rfl
      simp
  | cons x xs ih =>
    intro k c
    cases k with
    | zero =>
      simp only [combinations, List.mem_singleton, List.length_eq_zero]
      constructor
      · rintro rfl
        exact ⟨List.nil_sublist _, rfl⟩
      · rintro ⟨-, rfl⟩
        rfl
    | succ k =>
      simp only [combinations, List.mem_append, List.mem_map]
      constructor
      · rintro (⟨c', hc', rfl⟩ | h)
        · rcases (ih k c').1 hc' with ⟨hs, hl⟩
          exact ⟨hs.cons₂ x, by simp [hl]⟩
        · rcases (ih (k + 1) c).1 h with ⟨hs, hl⟩
          exact ⟨hs.cons x, hl⟩
      · rintro ⟨hs, hl⟩
        rcases List.sublist_cons_iff.1 hs with h | ⟨r, rfl, hr⟩
        · exact Or.inr ((ih (k + 1) c).2 ⟨h, hl⟩)
        · exact Or.inl ⟨r, (ih k r).2 ⟨hr, by simpa using hl⟩, rfl⟩

lemma combinations_ne_nil {l : List Nat} {k : Nat} (hk : k ≤ l.length) :
    combinations k l ≠ [] := by
  have hmem : l.take k ∈ combinations k l :=
    (mem_combinations l k _).2 ⟨List.take_sublist k l, by simp [List.length_take, Nat.min_eq_left hk]⟩
  intro h
  rw [h] at hmem
  exact absurd hmem (List.not_mem_nil _)

lemma mem_complement {players t1 : List Nat} (x : Nat) :
    x ∈ complement players t1 ↔ x ∈ players ∧ x ∉ t1 := by
  unfold complement
  rw [List.mem_insertionSort]
  simp

lemma nodup_complement {players t1 : List Nat} : (complement players t1).Nodup := by
  unfold complement
  exact ((List.perm_insertionSort _ _).nodup_iff).2 ((players.nodup_dedup).filter _)

lemma perm_of_nodup_of_mem_iff {l1 l2 : List Nat} (h1 : l1.Nodup) (h2 : l2.Nodup)
    (h : ∀ x, x ∈ l1 ↔ x ∈ l2) : l1.Perm l2 :=
  (List.subperm_of_subset h1 fun x hx => (h x).1 hx).antisymm
    (List.subperm_of_subset h2 fun x hx => (h x).2 hx)

/-- Loop invariant for `seen` (helper.py:46,54-56): it holds exactly the keys
of the already processed candidates. -/
def SeenInv (players : List Nat) (processed : List (List Nat))
    (seen : List (List Nat × List Nat)) : Prop :=
  ∀ k, k ∈ seen ↔ ∃ c ∈ processed, keyOf players c = k

/-- Loop invariant for `bestMatchup`/`smallestDiff` (helper.py:48-49,63-71):
the best matchup is built from the first processed candidate whose difference
equals the minimum over all processed candidates. -/
def BestInv (elo : Nat → Int) (players : List Nat) (processed : List (List Nat))
    (best : Option Matchup) (smallest : Option Int) : Prop :=
  match best, smallest with
  | none, none => processed = []
  | some m, some d =>
      m.eloDifference = d ∧
      m = mkMatchup elo players m.redTeam ∧
      (∃ pre post, processed = pre ++ m.redTeam :: post ∧
        ∀ c ∈ pre, d < diffOf elo players c) ∧
      (∀ c ∈ processed, d ≤ diffOf elo players c)
  | _, _ => False

lemma getTeamsAux_correct (elo : Nat → Int) (players : List Nat) :
    ∀ (cs : List (List Nat)) (processed : List (List Nat))
      (seen : List (List Nat × List Nat)) (best : Option Matchup) (smallest : Option Int),
      SeenInv players processed seen →
      BestInv elo players processed best smallest →
      ∃ seen' smallest',
        SeenInv players (processed ++ cs) seen' ∧
        BestInv elo players (processed ++ cs)
          (getTeamsAux elo players cs seen best smallest) smallest' := by
  intro cs
  induction cs with
  | nil =>
    intro processed seen best smallest hseen hbest
    exact ⟨seen, smallest, by simpa using hseen, by simpa using hbest⟩
  | cons t1 rest ih =>
    intro processed seen best smallest hseen hbest
    by_cases hk : matchupKey t1 (complement players t1) ∈ seen
    · -- candidate skipped: its key, hence its partition and difference,
      -- already occurred among the processed candidates
      have hstep : getTeamsAux elo players (t1 :: rest) seen best smallest =
          getTeamsAux elo players rest seen best smallest := by
        simp only [getTeamsAux]
        rw [if_pos hk]
      obtain ⟨c', hc'mem, hc'key⟩ := (hseen _).1 hk
      have hdiffeq : diffOf elo players t1 = diffOf elo players c' :=
        diffOf_eq_of_keyOf_eq elo players hc'key.symm
      have hseen' : SeenInv players (processed ++ [t1]) seen := by
        intro k2
        rw [hseen k2]
        constructor
        · rintro ⟨c, hc, hck⟩
          exact ⟨c, by simp [hc], hck⟩
        · rintro ⟨c, hc, hck⟩
          rcases List.mem_append.1 hc with hc | hc
          · exact ⟨c, hc, hck⟩
          · rcases List.mem_singleton.1 hc with rfl
            exact ⟨c', hc'mem, hc'key.trans hck⟩
      have hbest' : BestInv elo players (processed ++ [t1]) best smallest := by
        rcases best with _ | m <;> rcases smallest with _ | d
        · simp only [BestInv] at hbest
          rw [hbest] at hc'mem
          exact absurd hc'mem (List.not_mem_nil c')
        · simp only [BestInv] at hbest
        · simp only [BestInv] at hbest
        · simp only [BestInv] at hbest ⊢
          obtain ⟨hd, hmk, ⟨pre, post, hsplit, hpre⟩, hmin⟩ := hbest
          refine ⟨hd, hmk, ⟨pre, post ++ [t1], by rw [hsplit]; simp, hpre⟩, ?_⟩
          intro c hc
          rcases List.mem_append.1 hc with hc | hc
          · exact hmin c hc
          · rcases List.mem_singleton.1 hc with rfl
            exact hdiffeq ▸ hmin c' hc'mem
      obtain ⟨seen', smallest', h1, h2⟩ := ih (processed ++ [t1]) seen best smallest hseen' hbest'
      refine ⟨seen', smallest', ?_, ?_⟩
      · simpa [List.append_assoc] using h1
      · rw [hstep]
        simpa [List.append_assoc] using h2
    · -- fresh candidate: its key is added and it competes on difference
      have hseen' : SeenInv players (processed ++ [t1])
          (matchupKey t1 (complement players t1) :: seen) := by
        intro k2
        simp only [List.mem_cons]
        constructor
        · rintro (rfl | hks)
          · exact ⟨t1, by simp, rfl⟩
          · obtain ⟨c, hc, hck⟩ := (hseen k2).1 hks
            exact ⟨c, by simp [hc], hck⟩
        · rintro ⟨c, hc, hck⟩
          rcases List.mem_append.1 hc with hc | hc
          · exact Or.inr ((hseen k2).2 ⟨c, hc, hck⟩)
          · rcases List.mem_singleton.1 hc with rfl
            exact Or.inl hck.symm
      rcases best with _ | m <;> rcases smallest with _ | d
      · -- first ever candidate: nothing processed, infinite smallest
        have hproc : processed = [] := by simpa [BestInv] using hbest
        subst hproc
        have hstep : getTeamsAux elo players (t1 :: rest) seen none none =
            getTeamsAux elo players rest (matchupKey t1 (complement players t1) :: seen)
              (some (mkMatchup elo players t1))
              (some (teamDiff elo t1 (complement players t1))) := by
          simp only [getTeamsAux]
          rw [if_neg hk]
          simp [ltInf]
        have hbest' : BestInv elo players ([] ++ [t1])
            (some (mkMatchup elo players t1))
            (some (teamDiff elo t1 (complement players t1))) := by
          refine ⟨rfl, rfl, ⟨[], [], rfl, ?_⟩, ?_⟩
          · intro c hc
            exact absurd hc (List.not_mem_nil c)
          · intro c hc
            rcases List.mem_singleton.1 (by simpa using hc) with rfl
            exact le_refl _
        obtain ⟨seen', smallest', h1, h2⟩ := ih ([] ++ [t1]) _ _ _ hseen' hbest'
        refine ⟨seen', smallest', ?_, ?_⟩
        · simpa [List.append_assoc] using h1
        · rw [hstep]
          simpa [List.append_assoc] using h2
      · simp only [BestInv] at hbest
      · simp only [BestInv] at hbest
      · -- running best exists: compete on difference
        simp only [BestInv] at hbest
        obtain ⟨hd, hmk, ⟨pre, post, hsplit, hpre⟩, hmin⟩ := hbest
        by_cases hlt : teamDiff elo t1 (complement players t1) < d
        · have hstep : getTeamsAux elo players (t1 :: rest) seen (some m) (some d) =
              getTeamsAux elo players rest (matchupKey t1 (complement players t1) :: seen)
                (some (mkMatchup elo players t1))
                (some (teamDiff elo t1 (complement players t1))) := by
            simp only [getTeamsAux]
            rw [if_neg hk]
            simp only [ltInf, decide_eq_true_eq]
            rw [if_pos hlt]
          have hbest' : BestInv elo players (processed ++ [t1])
              (some (mkMatchup elo players t1))
              (some (teamDiff elo t1 (complement players t1))) := by
            refine ⟨rfl, rfl, ⟨processed, [], rfl, ?_⟩, ?_⟩
            · intro c hc
              exact lt_of_lt_of_le hlt (hmin c hc)
            · intro c hc
              rcases List.mem_append.1 hc with hc | hc
              · exact le_of_lt (lt_of_lt_of_le hlt (hmin c hc))
              · rcases List.mem_singleton.1 hc with rfl
                exact le_refl _
          obtain ⟨seen', smallest', h1, h2⟩ := ih (processed ++ [t1]) _ _ _ hseen' hbest'
          refine ⟨seen', smallest', ?_, ?_⟩
          · simpa [List.append_assoc] using h1
          · rw [hstep]
            simpa [List.append_assoc] using h2
        · have hds : d ≤ teamDiff elo t1 (complement players t1) := le_of_not_lt hlt
          have hstep : getTeamsAux elo players (t1 :: rest) seen (some m) (some d) =
              getTeamsAux elo players rest (matchupKey t1 (complement players t1) :: seen)
                (some m) (some d) := by
            simp only [getTeamsAux]
            rw [if_neg hk]
            simp only [ltInf, decide_eq_true_eq]
            rw [if_neg hlt]
          have hbest' : BestInv elo players (processed ++ [t1]) (some m) (some d) := by
            refine ⟨hd, hmk, ⟨pre, post ++ [t1], by rw [hsplit]; simp, hpre⟩, ?_⟩
            intro c hc
            rcases List.mem_append.1 hc with hc | hc
            · exact hmin c hc
            · rcases List.mem_singleton.1 hc with rfl
              exact hds
          obtain ⟨seen', smallest', h1, h2⟩ := ih (processed ++ [t1]) _ _ _ hseen' hbest'
          refine ⟨seen', smallest', ?_, ?_⟩
          · simpa [List.append_assoc] using h1
          · rw [hstep]
            simpa [List.append_assoc] using h2

lemma filter_mem_perm {players t : List Nat} (hnd : players.Nodup)
    (ht : ∀ x ∈ t, x ∈ players) (htn : t.Nodup) :
    (players.filter (fun p => p ∈ t)).Perm t := by
  apply perm_of_nodup_of_mem_iff (hnd.filter _) htn
  intro x
  simp only [List.mem_filter, decide_eq_true_eq]
  constructor
  · rintro ⟨-, hx⟩
    exact hx
  · intro hx
    exact ⟨ht x hx, hx⟩

lemma length_complement {players t : List Nat} (hnd : players.Nodup)
    (ht : t.Sublist players) :
    (complement players t).length = players.length - t.length := by
  unfold complement
  rw [(List.perm_insertionSort _ _).length_eq, List.dedup_eq_self.2 hnd]
  have hsplit := (List.filter_append_perm (fun p => decide (p ∈ t)) players).length_eq
  rw [List.length_append] at hsplit
  have hmem : (players.filter (fun p => p ∈ t)).length = t.length :=
    (filter_mem_perm hnd (fun x hx => ht.subset hx) (ht.nodup hnd)).length_eq
  have hnot : (players.filter (fun x => !decide (x ∈ t))) =
      players.filter (fun p => p ∉ t) := by
    simp [decide_not]
  rw [hnot] at hsplit
  omega

/-- General structure theorem for `getTeams` on a duplicate-free key list: a
matchup is always returned; it is built from the first enumerated combination
attaining the smallest difference; its sides partition the players with sizes
`⌊n/2⌋` and `n - ⌊n/2⌋`; and its difference is minimal over all enumerated
combinations. -/
theorem getTeams_general (elo : Nat → Int) (players : List Nat) (hnd : players.Nodup) :
    ∃ m : Matchup, getTeams elo players = some m ∧
      m = mkMatchup elo players m.redTeam ∧
      m.redTeam.Sublist players ∧
      m.redTeam.length = players.length / 2 ∧
      m.blueTeam.length = players.length - players.length / 2 ∧
      m.redTeam.Nodup ∧ m.blueTeam.Nodup ∧
      (∀ p ∈ m.redTeam, p ∉ m.blueTeam) ∧
      (∀ p, p ∈ players ↔ p ∈ m.redTeam ∨ p ∈ m.blueTeam) ∧
      (∀ c ∈ combinations (players.length / 2) players,
        m.eloDifference ≤ diffOf elo players c) ∧
      (∃ pre post, combinations (players.length / 2) players = pre ++ m.redTeam :: post ∧
        ∀ c ∈ pre, m.eloDifference < diffOf elo players c) := by
  obtain ⟨seen', smallest', hseen, hbest⟩ :=
    getTeamsAux_correct elo players (combinations (players.length / 2) players)
      [] [] none none (by intro k; simp) rfl
  rcases hres : getTeamsAux elo players (combinations (players.length / 2) players)
      [] none none with _ | m
  · rw [hres] at hbest
    rcases smallest' with _ | d
    · simp only [BestInv, List.nil_append] at hbest
      exact absurd hbest (combinations_ne_nil (Nat.div_le_self _ _))
    · simp only [BestInv] at hbest
  · rw [hres] at hbest
    rcases smallest' with _ | d
    · simp only [BestInv] at hbest
    · simp only [BestInv, List.nil_append] at hbest
      obtain ⟨hd, hmk, ⟨pre, post, hsplit, hpre⟩, hmin⟩ := hbest
      have hmem_red : m.redTeam ∈ combinations (players.length / 2) players := by
        rw [hsplit]
        simp
      obtain ⟨hsub, hlen⟩ := (mem_combinations _ _ _).1 hmem_red
      have hblue : m.blueTeam = complement players m.redTeam := by
        conv_lhs => rw [hmk]
        rfl
      refine ⟨m, hres, hmk, hsub, hlen, ?_, hsub.nodup hnd, ?_, ?_, ?_, ?_, ?_⟩
      · rw [hblue, length_complement hnd hsub, hlen]
      · rw [hblue]
        exact nodup_complement
      · intro p hp
        rw [hblue, mem_complement]
        rintro ⟨-, hnp⟩
        exact hnp hp
      · intro p
        constructor
        · intro hp
          by_cases hpr : p ∈ m.redTeam
          · exact Or.inl hpr
          · refine Or.inr ?_
            rw [hblue, mem_complement]
            exact ⟨hp, hpr⟩
        · rintro (hp | hp)
          · exact hsub.subset hp
          · rw [hblue, mem_complement] at hp
            exact hp.1
      · intro c hc
        rw [hd]
        exact hmin c hc
      · refine ⟨pre, post, hsplit, fun c hc => ?_⟩
        rw [hd]
        exact hpre c hc

/-- Any equal-style partition of the players is matched, up to permutation of
each side, by an enumerated combination; hence the returned minimum bounds the
difference of every partition of the given sizes. -/
lemma partition_diff_ge (elo : Nat → Int) (players : List Nat) (hnd : players.Nodup)
    {dmin : Int}
    (hmin : ∀ c ∈ combinations (players.length / 2) players, dmin ≤ diffOf elo players c)
    (A B : List Nat) (hA : A.Nodup) (hB : B.Nodup)
    (hdisj : ∀ p ∈ A, p ∉ B)
    (hcover : ∀ p, p ∈ players ↔ p ∈ A ∨ p ∈ B)
    (hlen : A.length = players.length / 2) :
    dmin ≤ teamDiff elo A B := by
  have hcperm : (players.filter (fun p => p ∈ A)).Perm A :=
    filter_mem_perm hnd (fun x hx => (hcover x).2 (Or.inl hx)) hA
  have hcsub : (players.filter (fun p => p ∈ A)).Sublist players := List.filter_sublist _
  have hclen : (players.filter (fun p => p ∈ A)).length = players.length / 2 := by
    rw [hcperm.length_eq, hlen]
  have hcmem : (players.filter (fun p => p ∈ A)) ∈
      combinations (players.length / 2) players :=
    (mem_combinations _ _ _).2 ⟨hcsub, hclen⟩
  have hcompperm : (complement players (players.filter (fun p => p ∈ A))).Perm B := by
    apply perm_of_nodup_of_mem_iff nodup_complement hB
    intro x
    rw [mem_complement]
    constructor
    · rintro ⟨hxp, hxc⟩
      rcases (hcover x).1 hxp with hxa | hxb
      · exact absurd (hcperm.mem_iff.2 hxa) hxc
      · exact hxb
    · intro hxb
      have hxp : x ∈ players := (hcover x).2 (Or.inr hxb)
      refine ⟨hxp, fun hxc => ?_⟩
      exact hdisj x (hcperm.mem_iff.1 hxc) hxb
  have hsums : diffOf elo players (players.filter (fun p => p ∈ A)) = teamDiff elo A B := by
    unfold diffOf teamDiff
    rw [(hcperm.map elo).sum_eq, (hcompperm.map elo).sum_eq]
  exact hsums ▸ hmin _ hcmem

/-- C1: for every even-sized, non-empty rating map (duplicate-free keys in
iteration order), `getTeams` returns two disjoint sides of equal size `n/2`
whose union is exactly the input participant set; no other equal-size
partition has a strictly smaller absolute rating-sum difference; and the
returned side A is the earliest candidate in the enumeration over the input's
iteration order whose difference attains the minimum. -/
theorem balance_correct (elo : Nat → Int) (players : List Nat)
    (hnd : players.Nodup) (hne : players ≠ []) (heven : players.length % 2 = 0) :
    ∃ m : Matchup, getTeams elo players = some m ∧
      m.redTeam.Nodup ∧ m.blueTeam.Nodup ∧
      (∀ p ∈ m.redTeam, p ∉ m.blueTeam) ∧
      m.redTeam.length = players.length / 2 ∧
      m.blueTeam.length = players.length / 2 ∧
      (∀ p, p ∈ players ↔ p ∈ m.redTeam ∨ p ∈ m.blueTeam) ∧
      m.eloDifference = teamDiff elo m.redTeam m.blueTeam ∧
      (∀ A B : List Nat, A.Nodup → B.Nodup → (∀ p ∈ A, p ∉ B) →
        (∀ p, p ∈ players ↔ p ∈ A ∨ p ∈ B) → A.length = players.length / 2 →
        m.eloDifference ≤ teamDiff elo A B) ∧
      (∃ pre post, combinations (players.length / 2) players = pre ++ m.redTeam :: post ∧
        ∀ c ∈ pre, m.eloDifference < diffOf elo players c) := by
  obtain ⟨m, hres, hmk, hsub, hlen, hblen, hrnd, hbnd, hdisj, hcover, hmin, htie⟩ :=
    getTeams_general elo players hnd
  refine ⟨m, hres, hrnd, hbnd, hdisj, hlen, ?_, hcover, ?_, ?_, htie⟩
  · rw [hblen]
    omega
  · rw [hmk]
    rfl
  · intro A B hA hB hd hc hl
    exact partition_diff_ge elo players hnd hmin A B hA hB hd hc hl

/-- Witness for C1 at the concrete even map `{1 ↦ 1, 2 ↦ 2}`. -/
theorem balance_correct_witness :
    ∃ m : Matchup, getTeams (fun p => (p : Int)) [1, 2] = some m ∧
      m.redTeam.Nodup ∧ m.blueTeam.Nodup ∧
      (∀ p ∈ m.redTeam, p ∉ m.blueTeam) ∧
      m.redTeam.length = [1, 2].length / 2 ∧
      m.blueTeam.length = [1, 2].length / 2 ∧
      (∀ p, p ∈ [1, 2] ↔ p ∈ m.redTeam ∨ p ∈ m.blueTeam) ∧
      m.eloDifference = teamDiff (fun p => (p : Int)) m.redTeam m.blueTeam ∧
      (∀ A B : List Nat, A.Nodup → B.Nodup → (∀ p ∈ A, p ∉ B) →
        (∀ p, p ∈ [1, 2] ↔ p ∈ A ∨ p ∈ B) → A.length = [1, 2].length / 2 →
        m.eloDifference ≤ teamDiff (fun p => (p : Int)) A B) ∧
      (∃ pre post, combinations ([1, 2].length / 2) [1, 2] = pre ++ m.redTeam :: post ∧
        ∀ c ∈ pre, m.eloDifference < diffOf (fun p => (p : Int)) [1, 2] c) :=
  balance_correct (fun p => (p : Int)) [1, 2] (by decide) (by decide) (by decide)

/-- C6 counterexample: on the odd-sized input `{1 ↦ 1, 2 ↦ 2, 3 ↦ 3}` the
balancer does not fail and does return a partition — the 1-versus-2 split
`[3]` against `[1, 2]` with difference `0`. -/
theorem balance_odd_counterexample :
    getTeams (fun p => (p : Int)) [1, 2, 3] = some ⟨[3], [1, 2], 0⟩ ∧
    getTeams (fun p => (p : Int)) [1, 2, 3] ≠ none := by
  exact ⟨by decide, by decide⟩

/-- C6 amended: an odd-sized rating map is not rejected — there is no parity
check in `getTeams` (helper.py:41-49) — and a partition with side sizes
`⌊n/2⌋` and `n - ⌊n/2⌋` covering the input disjointly is returned. -/
theorem balance_odd_returns_partition (elo : Nat → Int) (players : List Nat)
    (hnd : players.Nodup) (hodd : players.length % 2 = 1) :
    ∃ m : Matchup, getTeams elo players = some m ∧
      m.redTeam.length = players.length / 2 ∧
      m.blueTeam.length = players.length - players.length / 2 ∧
      (∀ p ∈ m.redTeam, p ∉ m.blueTeam) ∧
      (∀ p, p ∈ players ↔ p ∈ m.redTeam ∨ p ∈ m.blueTeam) := by
  obtain ⟨m, hres, hmk, hsub, hlen, hblen, hrnd, hbnd, hdisj, hcover, hmin, htie⟩ :=
    getTeams_general elo players hnd
  exact ⟨m, hres, hlen, hblen, hdisj, hcover⟩

/-- Witness for the amended C6 at the concrete odd map `{1 ↦ 1, 2 ↦ 2, 3 ↦ 3}`. -/
theorem balance_odd_returns_partition_witness :
    ∃ m : Matchup, getTeams (fun p => (p : Int)) [1, 2, 3] = some m ∧
      m.redTeam.length = [1, 2, 3].length / 2 ∧
      m.blueTeam.length = [1, 2, 3].length - [1, 2, 3].length / 2 ∧
      (∀ p ∈ m.redTeam, p ∉ m.blueTeam) ∧
      (∀ p, p ∈ [1, 2, 3] ↔ p ∈ m.redTeam ∨ p ∈ m.blueTeam) :=
  balance_odd_returns_partition (fun p => (p : Int)) [1, 2, 3] (by decide) (by decide)

/-! ## bot.py: rating ledger and match lifecycle

`guildStats[guildId]` is modelled (for one fixed guild) as a partial map from
member id to the member's stats record; `matches` as a partial map from match
id to the live match record. Platform objects held by a match (voice
channels, mention strings, queue handle, link, host) are adapter references
with no engine-state content and are omitted from the record. -/

/-- A per-outcome predicted adjustment: the `{"won": _, "loss": _}` dict
produced per player by `calculatePreGameElo` (helper.py:92-95). -/
structure Adj where
  won : Int
  loss : Int
deriving DecidableEq, Repr

/-- One member's stats record, `{"elo", "wins", "played", "hosted"}`
(bot.py:87). -/
structure PlayerStats where
  elo : Int
  wins : Int
  played : Int
  hosted : Int
deriving DecidableEq, Repr

/-- The defaults written on first reference (bot.py:87). -/
def defaultStats : PlayerStats := ⟨100, 0, 0, 0⟩

abbrev StatsMap := Nat → Option PlayerStats

/-- `updateElo(member, guild, stats, update=True)` (bot.py:57-106) for the
stat keys used by the lifecycle operations: the record is initialised with
`defaultStats` if missing, after which every one of the four keys exists, so
`update=True` always adds the provided deltas to the current values. -/
def updateEloAdd (gs : StatsMap) (memberId : Nat)
    (dElo dWins dPlayed dHosted : Int) : StatsMap :=
  fun p =>
    if p = memberId then
      let c := (gs memberId).getD defaultStats
      some ⟨c.elo + dElo, c.wins + dWins, c.played + dPlayed, c.hosted + dHosted⟩
    else gs p

/-- A live match record (bot.py:534-547): `preGameEloCalc` is kept as two
association lists keyed in the order of the teams it was computed for;
`who won` is `none` while the match is active. -/
structure Match where
  preRed : List (Nat × Adj)
  preBlue : List (Nat × Adj)
  redTeam : List Nat
  blueTeam : List Nat
  whoWon : Option Nat
deriving DecidableEq, Repr

abbrev Registry := Nat → Option Match

structure EngineState where
  guildStats : StatsMap
  liveMatches : Registry

/-- Point update of the match registry. -/
def setMatch (reg : Registry) (matchId : Nat) (m : Option Match) : Registry :=
  fun i => if i = matchId then m else reg i

/-- Outcome of a lifecycle operation: a graceful precondition rejection
mutates nothing; a crash (an uncaught Python exception such as `KeyError`)
aborts mid-operation with the mutations made so far. -/
inductive OpOutcome where
  | ok (s : EngineState)
  | rejected
  | crashed (s : EngineState)

/-- The per-team loop of `endMatch`/`swapWinners` (bot.py:626-652, 742-768):
for each member, look up their frozen adjustment on this side and apply
`updateElo(..., update=True)`. A missing key is a Python `KeyError`, raised
before the member's update, leaving the stats written so far. -/
def applyTeam (pre : List (Nat × Adj)) (sel : Adj → Int) (dWins dPlayed : Int) :
    List Nat → StatsMap → Except StatsMap StatsMap
  | [], gs => .ok gs
  | m :: rest, gs =>
    match pre.lookup m with
    | none => .error gs
    | some adj =>
      applyTeam pre sel dWins dPlayed rest (updateEloAdd gs m (sel adj) dWins dPlayed 0)

/-- `endMatch(interaction, matchId, winner)` (bot.py:603-699), state-relevant
core. Unknown id and already-set winner share one combined rejection
(bot.py:604); `who won` is written before the loops (bot.py:617); `if not
winner` makes red the winner exactly when `winner == 0` (bot.py:619-624);
voice-channel deletion and messaging are adapter effects. -/
def endMatch (s : EngineState) (matchId : Nat) (winner : Nat) : OpOutcome :=
  match s.liveMatches matchId with
  | none => .rejected
  | some cMatch =>
    match cMatch.whoWon with
    | some _ => .rejected
    | none =>
      let reg1 := setMatch s.liveMatches matchId (some {cMatch with whoWon := some winner})
      let redSel : Adj → Int := fun a => if winner = 0 then a.won else a.loss
      let rWin : Int := if winner = 0 then 1 else 0
      let blueSel : Adj → Int := fun a => if winner = 0 then a.loss else a.won
      let bWin : Int := if winner = 0 then 0 else 1
      match applyTeam cMatch.preRed redSel rWin 1 cMatch.redTeam s.guildStats with
      | .error gs => .crashed ⟨gs, reg1⟩
      | .ok gs1 =>
        match applyTeam cMatch.preBlue blueSel bWin 1 cMatch.blueTeam gs1 with
        | .error gs => .crashed ⟨gs, reg1⟩
        | .ok gs2 => .ok ⟨gs2, reg1⟩

/-- `cancelMatch(interaction, matchId, reason)` (bot.py:553-601),
state-relevant core: same combined rejection as `endMatch`, then
`matches.pop(matchId)`; no rating effect. -/
def cancelMatch (s : EngineState) (matchId : Nat) : OpOutcome :=
  match s.liveMatches matchId with
  | none => .rejected
  | some cMatch =>
    match cMatch.whoWon with
    | some _ => .rejected
    | none => .ok ⟨s.guildStats, setMatch s.liveMatches matchId none⟩

/-- `swapWinners(interaction, matchId)` (bot.py:701-790), state-relevant core:
distinct rejections for unknown id (bot.py:702) and still-active match
(bot.py:714); the new winner is `0 if who_won == 1 else 1` (bot.py:727); each
member receives twice their frozen delta for the new outcome, `wins` moves by
`+1`/`-1`, `played` by `0` (bot.py:742-768). -/
def swapWinners (s : EngineState) (matchId : Nat) : OpOutcome :=
  match s.liveMatches matchId with
  | none => .rejected
  | some cMatch =>
    match cMatch.whoWon with
    | none => .rejected
    | some w =>
      let newWinner : Nat := if w = 1 then 0 else 1
      let reg1 := setMatch s.liveMatches matchId (some {cMatch with whoWon := some newWinner})
      let redSel : Adj → Int := fun a => (if newWinner = 0 then a.won else a.loss) * 2
      let rWin : Int := if newWinner = 0 then 1 else -1
      let blueSel : Adj → Int := fun a => (if newWinner = 0 then a.loss else a.won) * 2
      let bWin : Int := if newWinner = 0 then -1 else 1
      match applyTeam cMatch.preRed redSel rWin 0 cMatch.redTeam s.guildStats with
      | .error gs => .crashed ⟨gs, reg1⟩
      | .ok gs1 =>
        match applyTeam cMatch.preBlue blueSel bWin 0 cMatch.blueTeam gs1 with
        | .error gs => .crashed ⟨gs, reg1⟩
        | .ok gs2 => .ok ⟨gs2, reg1⟩

/-- Python dict key order for a comprehension over a list with possible
repeats: first occurrence wins (bot.py:1164-1167 builds `{m.id: elo ...}` over
`match["redTeam"] + match["blueTeam"]`). -/
def pyDictKeys (l : List Nat) : List Nat :=
  l.foldl (fun acc x => if x ∈ acc then acc else acc ++ [x]) []

/-- `guildStats.get(guildId, {}).get(str(m.id), {}).get("elo", 100)`
(bot.py:1165): the live rating, defaulting to 100. -/
def liveElo (gs : StatsMap) (p : Nat) : Int :=
  ((gs p).getD defaultStats).elo

/-- `match.get("is won")` (bot.py:1109). The match dict is created with the
key `"who won"` (bot.py:538) and no code ever writes a key `"is won"`, so
this lookup returns `None` on every match. -/
def matchGetIsWon (_cMatch : Match) : Option Nat := none

/-- The body of `ReplacePlayerView.replace` from the side determination on
(bot.py:1123-1168). `teamList` aliases the selected side's list and is
mutated in place (bot.py:1137-1138); bot.py:1154 then re-checks membership on
the already-mutated red list, so a red-side replacement falls into the `else`
branch and assigns the red list to `match["blueTeam"]` as well. The
recomputation (bot.py:1164-1168) keys the new `preGameEloCalc` by a fresh
`getTeams` split of the roster at live ratings; `predictVals` supplies the
numeric values of those adjustments (`calculatePreGameElo` keys its output
exactly by the teams it is given — helper.py:89-103 — and the values, being
real-valued, are modelled separately and do not affect the key structure). -/
def replaceOnTeam (s : EngineState) (matchId : Nat) (cMatch : Match)
    (outgoing incoming : Nat) (predictVals : Nat → Adj) (onRed : Bool) : OpOutcome :=
  let newTeam := (if onRed then cMatch.redTeam else cMatch.blueTeam).erase outgoing ++ [incoming]
  let m1 := if onRed then {cMatch with redTeam := newTeam}
            else {cMatch with blueTeam := newTeam}
  let m2 := if outgoing ∈ m1.redTeam then {m1 with redTeam := newTeam}
            else {m1 with blueTeam := newTeam}
  let roster := pyDictKeys (m2.redTeam ++ m2.blueTeam)
  match getTeams (liveElo s.guildStats) roster with
  | none => .crashed s
  | some teams =>
    let m3 := {m2 with
      preRed := teams.redTeam.map (fun p => (p, predictVals p)),
      preBlue := teams.blueTeam.map (fun p => (p, predictVals p))}
    .ok ⟨s.guildStats, setMatch s.liveMatches matchId (some m3)⟩

/-- `ReplacePlayerView.replace` (bot.py:1103-1168), state-relevant core: the
guards of bot.py:1105-1134 followed by `replaceOnTeam`. The select-menu and
`guild.get_member` checks are adapter concerns. -/
def replacePlayer (s : EngineState) (matchId outgoing incoming : Nat)
    (predictVals : Nat → Adj) : OpOutcome :=
  match s.liveMatches matchId with
  | none => .rejected
  | some cMatch =>
    if (matchGetIsWon cMatch).isSome then .rejected
    else if outgoing ∈ cMatch.redTeam then
      replaceOnTeam s matchId cMatch outgoing incoming predictVals true
    else if outgoing ∈ cMatch.blueTeam then
      replaceOnTeam s matchId cMatch outgoing incoming predictVals false
    else .rejected

/-! ### Lifecycle correctness -/

lemma applyTeam_ok (pre : List (Nat × Adj)) (sel : Adj → Int) (dWins dPlayed : Int) :
    ∀ (team : List Nat) (gs : StatsMap),
      (∀ m ∈ team, (pre.lookup m).isSome) →
      ∃ gs', applyTeam pre sel dWins dPlayed team gs = .ok gs' ∧
        (∀ p, p ∉ team → gs' p = gs p) ∧
        (team.Nodup → ∀ p ∈ team, ∀ adj, pre.lookup p = some adj →
          gs' p = some ⟨((gs p).getD defaultStats).elo + sel adj,
                        ((gs p).getD defaultStats).wins + dWins,
                        ((gs p).getD defaultStats).played + dPlayed,
                        ((gs p).getD defaultStats).hosted⟩) := by
  intro team
  induction team with
  | nil =>
    intro gs _
    exact ⟨gs, rfl, fun p _ => rfl, fun _ p hp => absurd hp (List.not_mem_nil p)⟩
  | cons m rest ih =>
    intro gs hcomp
    obtain ⟨adj0, hadj0⟩ :=
      Option.isSome_iff_exists.1 (hcomp m (List.mem_cons_self m rest))
    obtain ⟨gs', hrun, hout, hin⟩ := ih (updateEloAdd gs m (sel adj0) dWins dPlayed 0)
      (fun p hp => hcomp p (List.mem_cons_of_mem m hp))
    refine ⟨gs', ?_, ?_, ?_⟩
    · simp only [applyTeam, hadj0]
      exact hrun
    · intro p hp
      have hp1 : p ∉ rest := fun h => hp (List.mem_cons_of_mem m h)
      have hp2 : p ≠ m := fun h => hp (h ▸ List.mem_cons_self m rest)
      rw [hout p hp1]
      simp [updateEloAdd, hp2]
    · intro hnd p hp adj hadj
      rcases List.mem_cons.1 hp with rfl | hp
      · have hmrest : p ∉ rest := (List.nodup_cons.1 hnd).1
        obtain rfl : adj0 = adj := Option.some.inj (hadj0.symm.trans hadj)
        rw [hout p hmrest]
        simp [updateEloAdd]
      · have hpm : p ≠ m := fun h => (List.nodup_cons.1 hnd).1 (h ▸ hp)
        rw [hin (List.nodup_cons.1 hnd).2 p hp adj hadj]
        simp [updateEloAdd, hpm]

/-- Full characterisation of a successful `endMatch` on an active match with
complete predictions and duplicate-free disjoint rosters. -/
lemma endMatch_spec (s : EngineState) (matchId winner : Nat)
    (cMatch : Match)
    (hm : s.liveMatches matchId = some cMatch) (hw : cMatch.whoWon = none)
    (hnr : cMatch.redTeam.Nodup) (hnb : cMatch.blueTeam.Nodup)
    (hdisj : ∀ p ∈ cMatch.redTeam, p ∉ cMatch.blueTeam)
    (hpr : ∀ p ∈ cMatch.redTeam, (cMatch.preRed.lookup p).isSome)
    (hpb : ∀ p ∈ cMatch.blueTeam, (cMatch.preBlue.lookup p).isSome) :
    ∃ s', endMatch s matchId winner = .ok s' ∧
      (∀ p ∈ cMatch.redTeam, ∀ adj, cMatch.preRed.lookup p = some adj →
        s'.guildStats p = some ⟨((s.guildStats p).getD defaultStats).elo +
            (if winner = 0 then adj.won else adj.loss),
          ((s.guildStats p).getD defaultStats).wins + (if winner = 0 then 1 else 0),
          ((s.guildStats p).getD defaultStats).played + 1,
          ((s.guildStats p).getD defaultStats).hosted⟩) ∧
      (∀ p ∈ cMatch.blueTeam, ∀ adj, cMatch.preBlue.lookup p = some adj →
        s'.guildStats p = some ⟨((s.guildStats p).getD defaultStats).elo +
            (if winner = 0 then adj.loss else adj.won),
          ((s.guildStats p).getD defaultStats).wins + (if winner = 0 then 0 else 1),
          ((s.guildStats p).getD defaultStats).played + 1,
          ((s.guildStats p).getD defaultStats).hosted⟩) ∧
      (∀ p, p ∉ cMatch.redTeam → p ∉ cMatch.blueTeam → s'.guildStats p = s.guildStats p) ∧
      s'.liveMatches matchId = some {cMatch with whoWon := some winner} ∧
      (∀ i, i ≠ matchId → s'.liveMatches i = s.liveMatches i) ∧
      (∀ w2, endMatch s' matchId w2 = .rejected) := by
  obtain ⟨gs1, hrun1, hout1, hin1⟩ :=
    applyTeam_ok cMatch.preRed (fun a => if winner = 0 then a.won else a.loss)
      (if winner = 0 then 1 else 0) 1 cMatch.redTeam s.guildStats hpr
  obtain ⟨gs2, hrun2, hout2, hin2⟩ :=
    applyTeam_ok cMatch.preBlue (fun a => if winner = 0 then a.loss else a.won)
      (if winner = 0 then 0 else 1) 1 cMatch.blueTeam gs1 hpb
  refine ⟨⟨gs2, setMatch s.liveMatches matchId (some {cMatch with whoWon := some winner})⟩,
    ?_, ?_, ?_, ?_, by simp [setMatch], ?_, ?_⟩
  · simp only [endMatch, hm, hw]
    rw [hrun1]
    dsimp only
    rw [hrun2]
  · intro p hp adj hadj
    have hpb2 : p ∉ cMatch.blueTeam := hdisj p hp
    show gs2 p = _
    rw [hout2 p hpb2]
    exact hin1 hnr p hp adj hadj
  · intro p hp adj hadj
    have hpr2 : p ∉ cMatch.redTeam := fun hr => hdisj p hr hp
    show gs2 p = _
    rw [hin2 hnb p hp adj hadj, hout1 p hpr2]
  · intro p hp1 hp2
    show gs2 p = _
    rw [hout2 p hp2, hout1 p hp1]
  · intro i hi
    simp [setMatch, hi]
  · intro w2
    simp [endMatch, setMatch]

/-- C2: resolving an active match exactly once adds each participant's frozen
onWin/onLoss delta (from the prediction stored in the match) to their current
rating, adds exactly 1 to `played`, adds 1 to `wins` iff they are on the
winning side (red wins on `winner = 0`), leaves non-participants untouched,
and records the winner; a second resolve call on the same match is rejected
and performs no state mutation. -/
theorem resolve_applies_frozen_deltas_once (s : EngineState) (matchId winner : Nat)
    (cMatch : Match)
    (hm : s.liveMatches matchId = some cMatch) (hw : cMatch.whoWon = none)
    (hnr : cMatch.redTeam.Nodup) (hnb : cMatch.blueTeam.Nodup)
    (hdisj : ∀ p ∈ cMatch.redTeam, p ∉ cMatch.blueTeam)
    (hpr : ∀ p ∈ cMatch.redTeam, (cMatch.preRed.lookup p).isSome)
    (hpb : ∀ p ∈ cMatch.blueTeam, (cMatch.preBlue.lookup p).isSome) :
    ∃ s', endMatch s matchId winner = .ok s' ∧
      (∀ p ∈ cMatch.redTeam, ∀ adj, cMatch.preRed.lookup p = some adj →
        s'.guildStats p = some ⟨((s.guildStats p).getD defaultStats).elo +
            (if winner = 0 then adj.won else adj.loss),
          ((s.guildStats p).getD defaultStats).wins + (if winner = 0 then 1 else 0),
          ((s.guildStats p).getD defaultStats).played + 1,
          ((s.guildStats p).getD defaultStats).hosted⟩) ∧
      (∀ p ∈ cMatch.blueTeam, ∀ adj, cMatch.preBlue.lookup p = some adj →
        s'.guildStats p = some ⟨((s.guildStats p).getD defaultStats).elo +
            (if winner = 0 then adj.loss else adj.won),
          ((s.guildStats p).getD defaultStats).wins + (if winner = 0 then 0 else 1),
          ((s.guildStats p).getD defaultStats).played + 1,
          ((s.guildStats p).getD defaultStats).hosted⟩) ∧
      (∀ p, p ∉ cMatch.redTeam → p ∉ cMatch.blueTeam → s'.guildStats p = s.guildStats p) ∧
      s'.liveMatches matchId = some {cMatch with whoWon := some winner} ∧
      (∀ i, i ≠ matchId → s'.liveMatches i = s.liveMatches i) ∧
      (∀ w2, endMatch s' matchId w2 = .rejected) :=
  endMatch_spec s matchId winner cMatch hm hw hnr hnb hdisj hpr hpb

/-- Concrete engine state used by the lifecycle witnesses and
counterexamples: one active 1v1 match with id 1, red `[1]` (frozen deltas
`+14` and `-16`), blue `[2]` (frozen `+16` and `-14`). -/
def demoState : EngineState :=
  ⟨fun _ => none,
   fun i => if i = 1 then some ⟨[(1, ⟨14, -16⟩)], [(2, ⟨16, -14⟩)], [1], [2], none⟩ else none⟩

/-- Witness for C2 at `demoState`: the resolve succeeds and the second resolve
is rejected. -/
theorem resolve_applies_frozen_deltas_once_witness :
    ∃ s', endMatch demoState 1 0 = OpOutcome.ok s' ∧
      (∀ w2, endMatch s' 1 w2 = OpOutcome.rejected) := by
  obtain ⟨s', h1, -, -, -, -, -, h7⟩ :=
    resolve_applies_frozen_deltas_once demoState 1 0
      ⟨[(1, ⟨14, -16⟩)], [(2, ⟨16, -14⟩)], [1], [2], none⟩
      rfl rfl (by decide) (by decide) (by decide) (by decide) (by decide)
  exact ⟨s', h1, h7⟩

/-- Full characterisation of a successful `swapWinners` on a resolved match
with complete predictions and duplicate-free disjoint rosters: the winner
becomes `0 if w == 1 else 1`, each member receives twice the frozen delta of
the new outcome, `wins` moves by the sign of the member's new outcome, and
`played` is unchanged. -/
lemma swapWinners_spec (s : EngineState) (matchId w : Nat) (cMatch : Match)
    (hm : s.liveMatches matchId = some cMatch) (hw : cMatch.whoWon = some w)
    (hnr : cMatch.redTeam.Nodup) (hnb : cMatch.blueTeam.Nodup)
    (hdisj : ∀ p ∈ cMatch.redTeam, p ∉ cMatch.blueTeam)
    (hpr : ∀ p ∈ cMatch.redTeam, (cMatch.preRed.lookup p).isSome)
    (hpb : ∀ p ∈ cMatch.blueTeam, (cMatch.preBlue.lookup p).isSome) :
    ∃ s', swapWinners s matchId = .ok s' ∧
      (∀ p ∈ cMatch.redTeam, ∀ adj, cMatch.preRed.lookup p = some adj →
        s'.guildStats p = some ⟨((s.guildStats p).getD defaultStats).elo +
            (if (if w = 1 then 0 else 1) = 0 then adj.won else adj.loss) * 2,
          ((s.guildStats p).getD defaultStats).wins +
            (if (if w = 1 then 0 else 1) = 0 then 1 else -1),
          ((s.guildStats p).getD defaultStats).played,
          ((s.guildStats p).getD defaultStats).hosted⟩) ∧
      (∀ p ∈ cMatch.blueTeam, ∀ adj, cMatch.preBlue.lookup p = some adj →
        s'.guildStats p = some ⟨((s.guildStats p).getD defaultStats).elo +
            (if (if w = 1 then 0 else 1) = 0 then adj.loss else adj.won) * 2,
          ((s.guildStats p).getD defaultStats).wins +
            (if (if w = 1 then 0 else 1) = 0 then -1 else 1),
          ((s.guildStats p).getD defaultStats).played,
          ((s.guildStats p).getD defaultStats).hosted⟩) ∧
      (∀ p, p ∉ cMatch.redTeam → p ∉ cMatch.blueTeam → s'.guildStats p = s.guildStats p) ∧
      s'.liveMatches matchId =
        some {cMatch with whoWon := some (if w = 1 then 0 else 1)} ∧
      (∀ i, i ≠ matchId → s'.liveMatches i = s.liveMatches i) := by
  obtain ⟨gs1, hrun1, hout1, hin1⟩ :=
    applyTeam_ok cMatch.preRed
      (fun a => (if (if w = 1 then 0 else 1) = 0 then a.won else a.loss) * 2)
      (if (if w = 1 then 0 else 1) = 0 then 1 else -1) 0 cMatch.redTeam s.guildStats hpr
  obtain ⟨gs2, hrun2, hout2, hin2⟩ :=
    applyTeam_ok cMatch.preBlue
      (fun a => (if (if w = 1 then 0 else 1) = 0 then a.loss else a.won) * 2)
      (if (if w = 1 then 0 else 1) = 0 then -1 else 1) 0 cMatch.blueTeam gs1 hpb
  refine ⟨⟨gs2, setMatch s.liveMatches matchId
      (some {cMatch with whoWon := some (if w = 1 then 0 else 1)})⟩,
    ?_, ?_, ?_, ?_, by simp [setMatch], ?_⟩
  · simp only [swapWinners, hm, hw]
    rw [hrun1]
    dsimp only
    rw [hrun2]
  · intro p hp adj hadj
    have hpb2 : p ∉ cMatch.blueTeam := hdisj p hp
    show gs2 p = _
    rw [hout2 p hpb2]
    have := hin1 hnr p hp adj hadj
    rw [this]
    simp
  · intro p hp adj hadj
    have hpr2 : p ∉ cMatch.redTeam := fun hr => hdisj p hr hp
    show gs2 p = _
    rw [hin2 hnb p hp adj hadj, hout1 p hpr2]
    simp
  · intro p hp1 hp2
    show gs2 p = _
    rw [hout2 p hp2, hout1 p hp1]
  · intro i hi
    simp [setMatch, hi]

/-- C3 counterexample: in `demoState` (red player 1 with frozen deltas
`won = 14`, `loss = -16`), resolving red as winner and then swapping leaves
player 1 at rating `82`, while resolving blue as winner directly leaves
player 1 at rating `84` — the swap is not equivalent to the direct opposite
resolution. -/
theorem swap_not_direct_resolve_counterexample :
    ∃ s1 s2 t1 : EngineState,
      endMatch demoState 1 0 = OpOutcome.ok s1 ∧
      swapWinners s1 1 = OpOutcome.ok s2 ∧
      endMatch demoState 1 1 = OpOutcome.ok t1 ∧
      (s2.guildStats 1).map PlayerStats.elo = some 82 ∧
      (t1.guildStats 1).map PlayerStats.elo = some 84 := by
  refine ⟨_, _, _, rfl, rfl, rfl, ?_, ?_⟩ <;> rfl

/-- C3 amended: swapping a resolved match flips the winner and, in a single
step, adds twice each participant's opposite-outcome frozen delta, moves
`wins` by +1 for new winners and -1 for new losers, and leaves `played`
unchanged; resolving with winner `w` and then swapping produces the same
state as resolving directly with the opposite winner provided every
participant's frozen deltas satisfy `onWin = -onLoss` (without that
hypothesis the ratings can differ, as the counterexample shows; `wins`,
`played` and the recorded winner agree regardless of it). -/
theorem swap_mechanism_and_conditional_equivalence (s : EngineState) (matchId w : Nat)
    (cMatch : Match)
    (hm : s.liveMatches matchId = some cMatch) (hw : cMatch.whoWon = none)
    (hw01 : w = 0 ∨ w = 1)
    (hnr : cMatch.redTeam.Nodup) (hnb : cMatch.blueTeam.Nodup)
    (hdisj : ∀ p ∈ cMatch.redTeam, p ∉ cMatch.blueTeam)
    (hpr : ∀ p ∈ cMatch.redTeam, (cMatch.preRed.lookup p).isSome)
    (hpb : ∀ p ∈ cMatch.blueTeam, (cMatch.preBlue.lookup p).isSome)
    (hsymR : ∀ p ∈ cMatch.redTeam, ∀ adj, cMatch.preRed.lookup p = some adj →
      adj.won + adj.loss = 0)
    (hsymB : ∀ p ∈ cMatch.blueTeam, ∀ adj, cMatch.preBlue.lookup p = some adj →
      adj.won + adj.loss = 0) :
    ∃ s1 s2 t1 : EngineState,
      endMatch s matchId w = .ok s1 ∧
      swapWinners s1 matchId = .ok s2 ∧
      endMatch s matchId (1 - w) = .ok t1 ∧
      (∀ p ∈ cMatch.redTeam, ∀ adj, cMatch.preRed.lookup p = some adj →
        s2.guildStats p = some ⟨((s1.guildStats p).getD defaultStats).elo +
            (if w = 0 then adj.loss else adj.won) * 2,
          ((s1.guildStats p).getD defaultStats).wins + (if w = 0 then -1 else 1),
          ((s1.guildStats p).getD defaultStats).played,
          ((s1.guildStats p).getD defaultStats).hosted⟩) ∧
      (∀ p ∈ cMatch.blueTeam, ∀ adj, cMatch.preBlue.lookup p = some adj →
        s2.guildStats p = some ⟨((s1.guildStats p).getD defaultStats).elo +
            (if w = 0 then adj.won else adj.loss) * 2,
          ((s1.guildStats p).getD defaultStats).wins + (if w = 0 then 1 else -1),
          ((s1.guildStats p).getD defaultStats).played,
          ((s1.guildStats p).getD defaultStats).hosted⟩) ∧
      (∀ p, s2.guildStats p = t1.guildStats p) ∧
      s2.liveMatches matchId = t1.liveMatches matchId := by
  obtain ⟨s1, hrun1, hred1, hblue1, hout1, hregAt1, hregO1, -⟩ :=
    endMatch_spec s matchId w cMatch hm hw hnr hnb hdisj hpr hpb
  obtain ⟨s2, hrun2, hred2, hblue2, hout2, hregAt2, hregO2⟩ :=
    swapWinners_spec s1 matchId w ({cMatch with whoWon := some w}) hregAt1 rfl
      hnr hnb hdisj hpr hpb
  obtain ⟨t1, hrun3, hred3, hblue3, hout3, hregAt3, hregO3, -⟩ :=
    endMatch_spec s matchId (1 - w) cMatch hm hw hnr hnb hdisj hpr hpb
  refine ⟨s1, s2, t1, hrun1, hrun2, hrun3, ?_, ?_, ?_, ?_⟩
  · intro p hp adj hadj
    have h2 := hred2 p hp adj hadj
    rcases hw01 with rfl | rfl
    · simpa using h2
    · simpa using h2
  · intro p hp adj hadj
    have h2 := hblue2 p hp adj hadj
    rcases hw01 with rfl | rfl
    · simpa using h2
    · simpa using h2
  · intro p
    by_cases hpR : p ∈ cMatch.redTeam
    · obtain ⟨adj, hadj⟩ := Option.isSome_iff_exists.1 (hpr p hpR)
      have e1 := hred1 p hpR adj hadj
      have e2 := hred2 p hpR adj hadj
      have e3 := hred3 p hpR adj hadj
      have hsym := hsymR p hpR adj hadj
      rw [e1] at e2
      rw [e2, e3]
      rcases hw01 with rfl | rfl <;>
        · norm_num [Option.getD_some, Option.some.injEq, PlayerStats.mk.injEq]
          omega
    · by_cases hpB : p ∈ cMatch.blueTeam
      · obtain ⟨adj, hadj⟩ := Option.isSome_iff_exists.1 (hpb p hpB)
        have e1 := hblue1 p hpB adj hadj
        have e2 := hblue2 p hpB adj hadj
        have e3 := hblue3 p hpB adj hadj
        have hsym := hsymB p hpB adj hadj
        rw [e1] at e2
        rw [e2, e3]
        rcases hw01 with rfl | rfl <;>
          · norm_num [Option.getD_some, Option.some.injEq, PlayerStats.mk.injEq]
            omega
      · rw [hout2 p hpR hpB, hout1 p hpR hpB, hout3 p hpR hpB]
  · rw [hregAt2, hregAt3]
    rcases hw01 with rfl | rfl <;> rfl

/-- Engine state with one active 1v1 match whose frozen deltas are symmetric
(`won = 15`, `loss = -15` for both players). -/
def symState : EngineState :=
  ⟨fun _ => none,
   fun i => if i = 1 then some ⟨[(1, ⟨15, -15⟩)], [(2, ⟨15, -15⟩)], [1], [2], none⟩ else none⟩

/-- Witness for the amended C3: in a 1v1 match with symmetric frozen deltas
`+15` and `-15` for both players, resolve-then-swap agrees with the direct
opposite resolution everywhere. -/
theorem swap_mechanism_and_conditional_equivalence_witness :
    ∃ s1 s2 t1 : EngineState,
      endMatch symState 1 0 = OpOutcome.ok s1 ∧
      swapWinners s1 1 = OpOutcome.ok s2 ∧
      endMatch symState 1 (1 - 0) = OpOutcome.ok t1 ∧
      (∀ p ∈ [1], ∀ adj : Adj, ([(1, (⟨15, -15⟩ : Adj))].lookup p) = some adj →
        s2.guildStats p = some ⟨((s1.guildStats p).getD defaultStats).elo +
            (if 0 = 0 then adj.loss else adj.won) * 2,
          ((s1.guildStats p).getD defaultStats).wins + (if 0 = 0 then -1 else 1),
          ((s1.guildStats p).getD defaultStats).played,
          ((s1.guildStats p).getD defaultStats).hosted⟩) ∧
      (∀ p ∈ [2], ∀ adj : Adj, ([(2, (⟨15, -15⟩ : Adj))].lookup p) = some adj →
        s2.guildStats p = some ⟨((s1.guildStats p).getD defaultStats).elo +
            (if 0 = 0 then adj.won else adj.loss) * 2,
          ((s1.guildStats p).getD defaultStats).wins + (if 0 = 0 then 1 else -1),
          ((s1.guildStats p).getD defaultStats).played,
          ((s1.guildStats p).getD defaultStats).hosted⟩) ∧
      (∀ p, s2.guildStats p = t1.guildStats p) ∧
      s2.liveMatches 1 = t1.liveMatches 1 :=
  swap_mechanism_and_conditional_equivalence symState 1 0
    ⟨[(1, ⟨15, -15⟩)], [(2, ⟨15, -15⟩)], [1], [2], none⟩
    rfl rfl (Or.inl rfl) (by decide) (by decide) (by decide) (by decide) (by decide)
    (by decide) (by decide)

/-- Engine state for the roster-replacement scenarios: an active 2v2 match
with id 7, red `[1, 2]` (live ratings 120 and 80), blue `[3, 5]` (both 100),
with complete predictions for the current roster; player 4 (live rating 130)
is available as a replacement. -/
def replState : EngineState :=
  ⟨fun p => if p = 1 then some ⟨120, 0, 0, 0⟩
    else if p = 2 then some ⟨80, 0, 0, 0⟩
    else if p = 3 then some ⟨100, 0, 0, 0⟩
    else if p = 4 then some ⟨130, 0, 0, 0⟩
    else if p = 5 then some ⟨100, 0, 0, 0⟩
    else none,
   fun i => if i = 7 then
      some ⟨[(1, ⟨14, -16⟩), (2, ⟨16, -14⟩)], [(3, ⟨15, -15⟩), (5, ⟨15, -15⟩)],
        [1, 2], [3, 5], none⟩
    else none⟩

/-- C4: after replacing blue player 5 by player 4 in `replState`, the
recomputed `preGameEloCalc` is keyed by the re-balanced `getTeams` split
(`[1, 3]` versus `[2, 4]`), not by the actual sides (`[1, 2]` versus
`[3, 4]`); roster member 2 is on the red side but has no entry under the red
predictions, and a subsequent resolve crashes on the missing key. -/
theorem predicted_deltas_side_mismatch_after_replace :
    ∃ s', replacePlayer replState 7 5 4 (fun _ => ⟨0, 0⟩) = OpOutcome.ok s' ∧
      ∃ m', s'.liveMatches 7 = some m' ∧
        m'.redTeam = [1, 2] ∧ m'.blueTeam = [3, 4] ∧
        (m'.preRed.map Prod.fst = [1, 3] ∧ m'.preBlue.map Prod.fst = [2, 4]) ∧
        (2 : Nat) ∈ m'.redTeam ∧ m'.preRed.lookup 2 = none ∧
        (∃ sc, endMatch s' 7 0 = OpOutcome.crashed sc) := by
  refine ⟨_, rfl, _, rfl, rfl, rfl, ⟨rfl, rfl⟩, by decide, rfl, _, rfl⟩

/-- Engine state for the state-guard scenario: a resolved 1v1 match with id 9
(`who won` is `0`), red `[1]`, blue `[2]`; player 3 is available. -/
def resolvedState : EngineState :=
  ⟨fun _ => none,
   fun i => if i = 9 then
      some ⟨[(1, ⟨15, -15⟩)], [(2, ⟨15, -15⟩)], [1], [2], some 0⟩
    else none⟩

/-- C5: replacing a player in the already-resolved match of `resolvedState`
is not rejected: the `match.get("is won")` guard (bot.py:1109) reads a key
that is never written (the real key is `"who won"`, bot.py:538), so the
operation proceeds and mutates the roster of a resolved match instead of
failing with a state conflict before any mutation. -/
theorem replace_ignores_resolved_state :
    ∃ s', replacePlayer resolvedState 9 2 3 (fun _ => ⟨0, 0⟩) = OpOutcome.ok s' ∧
      ∃ m', s'.liveMatches 9 = some m' ∧ m'.whoWon = some 0 ∧ m'.blueTeam = [3] := by
  refine ⟨_, rfl, _, rfl, rfl, rfl⟩

/-! ## bot.py: startMatch candidate selection (bot.py:371-406) -/

/-- A queue snapshot member: platform id plus the `bot` flag. -/
structure QMember where
  id : Nat
  bot : Bool
deriving DecidableEq, Repr

inductive StartErr where
  | typeErrorBotRemoval
  | notEnough
  | hostNotInQueue
deriving DecidableEq, Repr

/-- Ascending order on recorded queue-entry times,
`voiceData.get(m.id, float('inf'))` (bot.py:402): a missing entry sorts after
every recorded one. -/
def timeLE : Option Nat → Option Nat → Bool
  | some a, some b => a ≤ b
  | some _, none => true
  | none, some _ => false
  | none, none => true

/-- The candidate-selection core of `startMatch` (bot.py:371-406): snapshot
the queue members, drop bots, require at least `matchType*2` members and the
host among them, stable-sort ascending by recorded entry time (missing
entries last), move the host to the front, and keep the first `matchType*2`.

The bot-removal loop runs `queueMembers.pop(member)` (bot.py:375); `list.pop`
takes an integer index, so passing a member object raises `TypeError` as soon
as the first bot is encountered — no bot is ever removed and the whole
command dies before the length check. Python's `list.sort` is stable, and a
stable sort under a total comparator has a unique result, so it is modelled
by insertion sort (also stable). -/
def startMatchSelect (queueMembers : List QMember) (host : QMember)
    (joinTime : Nat → Option Nat) (matchType : Nat) : Except StartErr (List QMember) :=
  if queueMembers.any (fun m => m.bot) then .error .typeErrorBotRemoval
  else if queueMembers.length < matchType * 2 then .error .notEnough
  else if host ∉ queueMembers then .error .hostNotInQueue
  else
    let sorted := List.insertionSort
      (fun a b => timeLE (joinTime a.id) (joinTime b.id) = true) queueMembers
    let reordered := host :: sorted.erase host
    .ok (reordered.take (matchType * 2))

/-- C9: with the claim's preconditions satisfied — host `1` in queue, three
eligible non-bot candidates for a 1v1 — the presence of a single bot member
(`2`) makes candidate selection raise `TypeError` instead of excluding the
bot; with no bot present, selection does return the host first followed by
the earliest-joined members, with the never-joined member `4` ordered last. -/
theorem bot_in_queue_crashes_selection :
    startMatchSelect [⟨1, false⟩, ⟨2, true⟩, ⟨3, false⟩, ⟨4, false⟩] ⟨1, false⟩
      (fun _ => none) 1 = Except.error StartErr.typeErrorBotRemoval ∧
    startMatchSelect [⟨3, false⟩, ⟨1, false⟩, ⟨2, false⟩, ⟨4, false⟩] ⟨1, false⟩
      (fun p => if p = 1 then some 10 else if p = 2 then some 20 else
        if p = 3 then some 30 else none) 2 =
      Except.ok [⟨1, false⟩, ⟨2, false⟩, ⟨3, false⟩, ⟨4, false⟩] := by
  exact ⟨rfl, rfl⟩

/-! ## bot.py: parse_duration and the penalty duration gate -/

/-- The scanner for `re.findall(r"(\d+)([dhms])", s)` (bot.py:798-799) on an
already-lowercased character list, one character at a time. The state is the
value of the digit run currently being read (`none` when not inside a run).
A maximal digit run immediately followed by one of `d h m s` yields a match
`(amount, unit)`; a run followed by any other character is discarded, and no
match can begin at a non-digit, so scanning resumes after that character —
exactly the behaviour of the regular expression, whose greedy `\d+` cannot
backtrack usefully because a shortened run would end in a digit. -/
def pyFindallAux : Option Nat → List Char → List (Nat × Char)
  | _, [] => []
  | none, c :: rest =>
    if c.isDigit then pyFindallAux (some (c.toNat - Char.toNat '0')) rest
    else pyFindallAux none rest
  | some n, c :: rest =>
    if c.isDigit then pyFindallAux (some (n * 10 + (c.toNat - Char.toNat '0'))) rest
    else if c = 'd' ∨ c = 'h' ∨ c = 'm' ∨ c = 's' then
      (n, c) :: pyFindallAux none rest
    else pyFindallAux none rest

def pyFindall (s : List Char) : List (Nat × Char) := pyFindallAux none s

/-- One iteration of the accumulation loop of `parse_duration`
(bot.py:800-807): `d`, `h` and `m` contribute 86400, 3600 and 60 seconds per
unit; the matched unit `s` has no branch and contributes nothing. -/
def unitSeconds (amount : Nat) (unit : Char) : Nat :=
  if unit = 'd' then amount * 86400
  else if unit = 'h' then amount * 3600
  else if unit = 'm' then amount * 60
  else 0

/-- `parse_duration(duration_str)` (bot.py:792-807): lower-case the input,
scan for `(\d+)([dhms])` matches, and accumulate the per-unit seconds. -/
def parse_duration (s : String) : Nat :=
  (pyFindall (s.data.map Char.toLower)).foldl (fun total t => total + unitSeconds t.1 t.2) 0

/-- The `/penalty` duration gate (bot.py:1512-1517): the request is rejected
as an invalid duration iff the parsed total is non-positive. -/
def penaltyRejectsDuration (s : String) : Bool :=
  parse_duration s ≤ 0

lemma duration_foldl_seconds_only : ∀ (ts : List (Nat × Char)) (n : Nat),
    (∀ t ∈ ts, t.2 = 's') →
    ts.foldl (fun total t => total + unitSeconds t.1 t.2) n = n
  | [], _, _ => rfl
  | t :: ts, n, h => by
    have ht := h t (List.mem_cons_self t ts)
    simp only [List.foldl_cons, ht]
    rw [show unitSeconds t.1 's' = 0 from rfl, Nat.add_zero]
    exact duration_foldl_seconds_only ts n (fun t' ht' => h t' (List.mem_cons_of_mem t ht'))

/-- C10: a duration string whose matched components all carry the `s` unit
parses to 0 — `s` is matched by the pattern but no branch accumulates
seconds — so such a penalty request is rejected as an invalid duration; only
`d`, `h` and `m` contribute, at 86400, 3600 and 60 seconds per unit. -/
theorem seconds_only_duration_rejected (s : String)
    (h : ∀ t ∈ pyFindall (s.data.map Char.toLower), t.2 = 's') :
    parse_duration s = 0 ∧ penaltyRejectsDuration s = true ∧
    (∀ a : Nat, unitSeconds a 'd' = a * 86400 ∧ unitSeconds a 'h' = a * 3600 ∧
      unitSeconds a 'm' = a * 60 ∧ unitSeconds a 's' = 0) := by
  have h0 : parse_duration s = 0 := duration_foldl_seconds_only _ 0 h
  refine ⟨h0, ?_, fun a => ⟨rfl, rfl, rfl, rfl⟩⟩
  simp [penaltyRejectsDuration, h0]

/-- Witness for C10 on the seconds-only duration string `"45s"`. -/
theorem seconds_only_duration_rejected_witness :
    parse_duration "45s" = 0 ∧ penaltyRejectsDuration "45s" = true ∧
    (∀ a : Nat, unitSeconds a 'd' = a * 86400 ∧ unitSeconds a 'h' = a * 3600 ∧
      unitSeconds a 'm' = a * 60 ∧ unitSeconds a 's' = 0) :=
  seconds_only_duration_rejected "45s" (by decide)

/-! ## helper.py: calculatePreGameElo (RatingDeltaPredictor)

The Python computation runs in IEEE-754 double arithmetic (`10 ** x`, `/`
and `round` on floats). It is modelled over the reals: the same formulas
with real exponentiation, and Python 3's `round` — banker's rounding, ties
to even — as a relation on ℝ. All real-valued terms live inside
propositions, so the rest of the development stays executable. -/

/-- Python 3 `round(x)`: the nearest integer, with exact halves going to the
even neighbour. -/
def pyRoundIs (x : ℝ) (n : ℤ) : Prop :=
  (x - ⌊x⌋ < 1 / 2 ∧ n = ⌊x⌋) ∨
  (1 / 2 < x - ⌊x⌋ ∧ n = ⌊x⌋ + 1) ∨
  (x - ⌊x⌋ = 1 / 2 ∧ ((Even ⌊x⌋ ∧ n = ⌊x⌋) ∨ (¬ Even ⌊x⌋ ∧ n = ⌊x⌋ + 1)))

/-- Modelled from the spec: the rounding rule named in §4.4
("round-half-away-from-zero"), absent from the source, for comparison with
the code's rounding. -/
def roundHalfAwayIs (x : ℝ) (n : ℤ) : Prop :=
  (0 ≤ x ∧ n = ⌊x + 1 / 2⌋) ∨ (x < 0 ∧ n = -⌊-x + 1 / 2⌋)

/-- One player's expected score and predicted adjustments (helper.py:91-95):
`E = 1 / (1 + 10 ** ((avgOpp - elo) / 400))`, `won = round(K * (1 - E))`,
`loss = round(K * (0 - E))`. -/
def playerAdjIs (K : ℤ) (avgOpp : ℝ) (r : ℤ) (a : Adj) : Prop :=
  ∃ e : ℝ, e = 1 / (1 + (10 : ℝ) ^ ((avgOpp - (r : ℝ)) / 400)) ∧
    pyRoundIs ((K : ℝ) * (1 - e)) a.won ∧ pyRoundIs ((K : ℝ) * (0 - e)) a.loss

/-- `calculatePreGameElo(matchup, perPlayerK=30)` (helper.py:75-108): the
average of each side's opposing ratings, then per-player adjustments against
that average. The matchup's `eloRedTeam`/`eloBlueTeam` dicts are the
restriction of the rating map to the teams, so lookups in them coincide with
`elo`. -/
def calculatePreGameEloIs (redTeam blueTeam : List Nat) (elo : Nat → Int)
    (K : ℤ) (redAdj blueAdj : Nat → Adj) : Prop :=
  ∃ avgRed avgBlue : ℝ,
    avgBlue = (((blueTeam.map elo).sum : ℤ) : ℝ) / (blueTeam.length : ℝ) ∧
    avgRed = (((redTeam.map elo).sum : ℤ) : ℝ) / (redTeam.length : ℝ) ∧
    (∀ p ∈ redTeam, playerAdjIs K avgBlue (elo p) (redAdj p)) ∧
    (∀ p ∈ blueTeam, playerAdjIs K avgRed (elo p) (blueAdj p))

lemma pyRoundIs_nonneg {x : ℝ} {n : ℤ} (hx : 0 < x) (h : pyRoundIs x n) : 0 ≤ n := by
  have hfl : (0 : ℤ) ≤ ⌊x⌋ := Int.floor_nonneg.2 (le_of_lt hx)
  rcases h with ⟨-, rfl⟩ | ⟨-, rfl⟩ | ⟨-, h⟩
  · exact hfl
  · omega
  · rcases h with ⟨-, rfl⟩ | ⟨-, rfl⟩ <;> omega

lemma pyRoundIs_nonpos {x : ℝ} {n : ℤ} (hx : x < 0) (h : pyRoundIs x n) : n ≤ 0 := by
  have hfl : ⌊x⌋ < 0 := by
    by_contra hc
    push_neg at hc
    exact absurd (Int.floor_nonneg.1 hc) (not_le.2 hx)
  rcases h with ⟨-, rfl⟩ | ⟨-, rfl⟩ | ⟨-, h⟩
  · omega
  · omega
  · rcases h with ⟨-, rfl⟩ | ⟨-, rfl⟩ <;> omega

lemma pyRoundIs_eq_below {x : ℝ} {k n : ℤ} (hfl : ⌊x⌋ = k) (hfrac : x - (k : ℝ) < 1 / 2)
    (h : pyRoundIs x n) : n = k := by
  rcases h with ⟨-, rfl⟩ | ⟨hgt, -⟩ | ⟨heq, -⟩
  · exact hfl
  · rw [hfl] at hgt
    linarith
  · rw [hfl] at heq
    linarith

lemma pyRoundIs_eq_above {x : ℝ} {k n : ℤ} (hfl : ⌊x⌋ = k) (hfrac : 1 / 2 < x - (k : ℝ))
    (h : pyRoundIs x n) : n = k + 1 := by
  rcases h with ⟨hlt, -⟩ | ⟨-, rfl⟩ | ⟨heq, -⟩
  · rw [hfl] at hlt
    linarith
  · rw [hfl]
  · rw [hfl] at heq
    linarith

lemma pyRoundIs_of_below {x : ℝ} {k : ℤ} (hfl : ⌊x⌋ = k) (hfrac : x - (k : ℝ) < 1 / 2) :
    pyRoundIs x k :=
  Or.inl ⟨by rw [hfl]; exact hfrac, hfl.symm⟩

lemma pyRoundIs_of_above {x : ℝ} {k : ℤ} (hfl : ⌊x⌋ = k) (hfrac : 1 / 2 < x - (k : ℝ)) :
    pyRoundIs x (k + 1) :=
  Or.inr (Or.inl ⟨by rw [hfl]; exact hfrac, by rw [hfl]⟩)

lemma ten_rpow_pos (t : ℝ) : (0 : ℝ) < (10 : ℝ) ^ t :=
  Real.rpow_pos_of_pos (by norm_num) t

lemma s20_pow : ((10 : ℝ) ^ ((1 : ℝ) / 20)) ^ (20 : ℕ) = 10 := by
  rw [← Real.rpow_natCast ((10 : ℝ) ^ ((1 : ℝ) / 20)) 20,
    ← Real.rpow_mul (by norm_num : (0 : ℝ) ≤ 10)]
  norm_num

lemma s_bounds : (1.122 : ℝ) < (10 : ℝ) ^ ((1 : ℝ) / 20) ∧
    (10 : ℝ) ^ ((1 : ℝ) / 20) < 1.1221 := by
  constructor
  · apply lt_of_pow_lt_pow_left₀ 20 (le_of_lt (ten_rpow_pos _))
    rw [s20_pow]
    norm_num
  · apply lt_of_pow_lt_pow_left₀ 20 (by norm_num : (0:ℝ) ≤ 1.1221)
    rw [s20_pow]
    norm_num

lemma D_bounds : (14 : ℝ) < 30 / ((10 : ℝ) ^ ((1 : ℝ) / 20) + 1) ∧
    30 / ((10 : ℝ) ^ ((1 : ℝ) / 20) + 1) < 14.5 := by
  obtain ⟨h1, h2⟩ := s_bounds
  have hpos : (0 : ℝ) < (10 : ℝ) ^ ((1 : ℝ) / 20) + 1 := by
    have := ten_rpow_pos ((1 : ℝ) / 20)
    linarith
  constructor
  · rw [lt_div_iff₀ hpos]
    linarith
  · rw [div_lt_iff₀ hpos]
    linarith

/-- The four roundings of the spec's worked example, phrased against
`D = 30 / (10^(1/20) + 1)`. -/
lemma predictor_example_rounds :
    pyRoundIs (30 / ((10 : ℝ) ^ ((1 : ℝ) / 20) + 1)) 14 ∧
    pyRoundIs (30 / ((10 : ℝ) ^ ((1 : ℝ) / 20) + 1) - 30) (-16) ∧
    pyRoundIs (30 - 30 / ((10 : ℝ) ^ ((1 : ℝ) / 20) + 1)) 16 ∧
    pyRoundIs (-(30 / ((10 : ℝ) ^ ((1 : ℝ) / 20) + 1))) (-14) := by
  obtain ⟨hDlo, hDhi⟩ := D_bounds
  have hf1 : ⌊30 / ((10 : ℝ) ^ ((1 : ℝ) / 20) + 1)⌋ = 14 :=
    Int.floor_eq_iff.2 ⟨by push_cast; linarith, by push_cast; linarith⟩
  have hf2 : ⌊30 / ((10 : ℝ) ^ ((1 : ℝ) / 20) + 1) - 30⌋ = -16 :=
    Int.floor_eq_iff.2 ⟨by push_cast; linarith, by push_cast; linarith⟩
  have hf3 : ⌊30 - 30 / ((10 : ℝ) ^ ((1 : ℝ) / 20) + 1)⌋ = 15 :=
    Int.floor_eq_iff.2 ⟨by push_cast; linarith, by push_cast; linarith⟩
  have hf4 : ⌊-(30 / ((10 : ℝ) ^ ((1 : ℝ) / 20) + 1))⌋ = -15 :=
    Int.floor_eq_iff.2 ⟨by push_cast; linarith, by push_cast; linarith⟩
  refine ⟨pyRoundIs_of_below hf1 (by push_cast; linarith),
    pyRoundIs_of_below hf2 (by push_cast; linarith), ?_, ?_⟩
  · have h := pyRoundIs_of_above hf3 (by push_cast; linarith)
    rw [show (15 : ℤ) + 1 = 16 from by norm_num] at h
    exact h
  · have h := pyRoundIs_of_above hf4 (by push_cast; linarith)
    rw [show (-15 : ℤ) + 1 = -14 from by norm_num] at h
    exact h

/-- The example rating map of spec §8: participant 1 at 120, everyone else
at 100. -/
def eloEx : Nat → Int := fun p => if p = 1 then 120 else 100

lemma red_e_eq :
    (1 : ℝ) / (1 + (10 : ℝ) ^ (((100 : ℝ) - ((120 : ℤ) : ℝ)) / 400)) =
    1 / (1 + ((10 : ℝ) ^ ((1 : ℝ) / 20))⁻¹) := by
  have hexp : ((100 : ℝ) - ((120 : ℤ) : ℝ)) / 400 = -((1 : ℝ) / 20) := by norm_num
  rw [hexp, Real.rpow_neg (by norm_num : (0 : ℝ) ≤ 10)]

lemma blue_e_eq :
    (1 : ℝ) / (1 + (10 : ℝ) ^ (((120 : ℝ) - ((100 : ℤ) : ℝ)) / 400)) =
    1 / (1 + (10 : ℝ) ^ ((1 : ℝ) / 20)) := by
  have hexp : ((120 : ℝ) - ((100 : ℤ) : ℝ)) / 400 = (1 : ℝ) / 20 := by norm_num
  rw [hexp]

lemma red_won_val :
    (30 : ℝ) * (1 - 1 / (1 + ((10 : ℝ) ^ ((1 : ℝ) / 20))⁻¹)) =
    30 / ((10 : ℝ) ^ ((1 : ℝ) / 20) + 1) := by
  have hs := ten_rpow_pos ((1 : ℝ) / 20)
  have h1 : (10 : ℝ) ^ ((1 : ℝ) / 20) ≠ 0 := ne_of_gt hs
  have h2 : (10 : ℝ) ^ ((1 : ℝ) / 20) + 1 ≠ 0 := by positivity
  have h3 : 1 + ((10 : ℝ) ^ ((1 : ℝ) / 20))⁻¹ ≠ 0 := by positivity
  field_simp

lemma red_loss_val :
    (30 : ℝ) * (0 - 1 / (1 + ((10 : ℝ) ^ ((1 : ℝ) / 20))⁻¹)) =
    30 / ((10 : ℝ) ^ ((1 : ℝ) / 20) + 1) - 30 := by
  have hs := ten_rpow_pos ((1 : ℝ) / 20)
  have h1 : (10 : ℝ) ^ ((1 : ℝ) / 20) ≠ 0 := ne_of_gt hs
  have h2 : (10 : ℝ) ^ ((1 : ℝ) / 20) + 1 ≠ 0 := by positivity
  have h3 : 1 + ((10 : ℝ) ^ ((1 : ℝ) / 20))⁻¹ ≠ 0 := by positivity
  field_simp
  ring

lemma blue_won_val :
    (30 : ℝ) * (1 - 1 / (1 + (10 : ℝ) ^ ((1 : ℝ) / 20))) =
    30 - 30 / ((10 : ℝ) ^ ((1 : ℝ) / 20) + 1) := by
  have hs := ten_rpow_pos ((1 : ℝ) / 20)
  have h2 : (10 : ℝ) ^ ((1 : ℝ) / 20) + 1 ≠ 0 := by positivity
  have h3 : 1 + (10 : ℝ) ^ ((1 : ℝ) / 20) ≠ 0 := by positivity
  field_simp
  ring

lemma blue_loss_val :
    (30 : ℝ) * (0 - 1 / (1 + (10 : ℝ) ^ ((1 : ℝ) / 20))) =
    -(30 / ((10 : ℝ) ^ ((1 : ℝ) / 20) + 1)) := by
  have hs := ten_rpow_pos ((1 : ℝ) / 20)
  have h2 : (10 : ℝ) ^ ((1 : ℝ) / 20) + 1 ≠ 0 := by positivity
  have h3 : 1 + (10 : ℝ) ^ ((1 : ℝ) / 20) ≠ 0 := by positivity
  field_simp
  ring

/-- The predictor relation holds at the worked example: sides `[1]` (rating
120) and `[2]` (rating 100), K = 30, adjustments `(14, -16)` and `(16, -14)`. -/
lemma calcEx_holds :
    calculatePreGameEloIs [1] [2] eloEx 30 (fun _ => ⟨14, -16⟩) (fun _ => ⟨16, -14⟩) := by
  obtain ⟨r1, r2, r3, r4⟩ := predictor_example_rounds
  refine ⟨120, 100, by norm_num [eloEx], by norm_num [eloEx], ?_, ?_⟩
  · intro p hp
    rcases List.mem_singleton.1 hp with rfl
    refine ⟨_, rfl, ?_, ?_⟩
    · rw [show ((30 : ℤ) : ℝ) = (30 : ℝ) from by norm_num,
        show ((eloEx 1 : ℤ) : ℝ) = ((120 : ℤ) : ℝ) from by norm_num [eloEx],
        red_e_eq, red_won_val]
      exact r1
    · rw [show ((30 : ℤ) : ℝ) = (30 : ℝ) from by norm_num,
        show ((eloEx 1 : ℤ) : ℝ) = ((120 : ℤ) : ℝ) from by norm_num [eloEx],
        red_e_eq, red_loss_val]
      exact r2
  · intro p hp
    rcases List.mem_singleton.1 hp with rfl
    refine ⟨_, rfl, ?_, ?_⟩
    · rw [show ((30 : ℤ) : ℝ) = (30 : ℝ) from by norm_num,
        show ((eloEx 2 : ℤ) : ℝ) = ((100 : ℤ) : ℝ) from by norm_num [eloEx],
        blue_e_eq, blue_won_val]
      exact r3
    · rw [show ((30 : ℤ) : ℝ) = (30 : ℝ) from by norm_num,
        show ((eloEx 2 : ℤ) : ℝ) = ((100 : ℤ) : ℝ) from by norm_num [eloEx],
        blue_e_eq, blue_loss_val]
      exact r4

/-- C7: the predictor computes `E = 1/(1 + 10^((avgOpp − rating)/400))`
against the mean opposing rating and returns `round(K·(1−E))` and
`round(K·(0−E))` under Python's rounding (ties to even); at avgOpp = 100,
rating = 120, K = 30 the relation holds with, and forces, onWin = 14 and
onLoss = -16 (16 and -14 for the 100-rated opponent), and at this input the
same values satisfy the round-half-away-from-zero rule, so the two rounding
rules agree here. -/
theorem predictor_formula_example :
    calculatePreGameEloIs [1] [2] eloEx 30 (fun _ => ⟨14, -16⟩) (fun _ => ⟨16, -14⟩) ∧
    (∀ rA bA : Nat → Adj,
      calculatePreGameEloIs [1] [2] eloEx 30 rA bA →
      rA 1 = ⟨14, -16⟩ ∧ bA 2 = ⟨16, -14⟩) ∧
    (∀ e : ℝ, e = 1 / (1 + (10 : ℝ) ^ (((100 : ℝ) - ((120 : ℤ) : ℝ)) / 400)) →
      roundHalfAwayIs ((30 : ℝ) * (1 - e)) 14 ∧
      roundHalfAwayIs ((30 : ℝ) * (0 - e)) (-16)) := by
  obtain ⟨hDlo, hDhi⟩ := D_bounds
  have hf1 : ⌊30 / ((10 : ℝ) ^ ((1 : ℝ) / 20) + 1)⌋ = 14 :=
    Int.floor_eq_iff.2 ⟨by push_cast; linarith, by push_cast; linarith⟩
  have hf2 : ⌊30 / ((10 : ℝ) ^ ((1 : ℝ) / 20) + 1) - 30⌋ = -16 :=
    Int.floor_eq_iff.2 ⟨by push_cast; linarith, by push_cast; linarith⟩
  have hf3 : ⌊30 - 30 / ((10 : ℝ) ^ ((1 : ℝ) / 20) + 1)⌋ = 15 :=
    Int.floor_eq_iff.2 ⟨by push_cast; linarith, by push_cast; linarith⟩
  have hf4 : ⌊-(30 / ((10 : ℝ) ^ ((1 : ℝ) / 20) + 1))⌋ = -15 :=
    Int.floor_eq_iff.2 ⟨by push_cast; linarith, by push_cast; linarith⟩
  refine ⟨calcEx_holds, ?_, ?_⟩
  · intro rA bA h
    obtain ⟨avgRed, avgBlue, hB, hR, hred, hblue⟩ := h
    have hB' : avgBlue = 100 := by
      rw [hB]
      norm_num [eloEx]
    have hR' : avgRed = 120 := by
      rw [hR]
      norm_num [eloEx]
    subst hB'
    subst hR'
    obtain ⟨e, he, hw, hl⟩ := hred 1 (List.mem_singleton_self 1)
    rw [show ((eloEx 1 : ℤ) : ℝ) = ((120 : ℤ) : ℝ) from by norm_num [eloEx],
      red_e_eq] at he
    subst he
    rw [show ((30 : ℤ) : ℝ) = (30 : ℝ) from by norm_num, red_won_val] at hw
    rw [show ((30 : ℤ) : ℝ) = (30 : ℝ) from by norm_num, red_loss_val] at hl
    have hwon := pyRoundIs_eq_below hf1 (by push_cast; linarith) hw
    have hloss := pyRoundIs_eq_below hf2 (by push_cast; linarith) hl
    obtain ⟨e2, he2, hw2, hl2⟩ := hblue 2 (List.mem_singleton_self 2)
    rw [show ((eloEx 2 : ℤ) : ℝ) = ((100 : ℤ) : ℝ) from by norm_num [eloEx],
      blue_e_eq] at he2
    subst he2
    rw [show ((30 : ℤ) : ℝ) = (30 : ℝ) from by norm_num, blue_won_val] at hw2
    rw [show ((30 : ℤ) : ℝ) = (30 : ℝ) from by norm_num, blue_loss_val] at hl2
    have hwon2 := pyRoundIs_eq_above hf3 (by push_cast; linarith) hw2
    have hloss2 := pyRoundIs_eq_above hf4 (by push_cast; linarith) hl2
    norm_num at hwon2 hloss2
    constructor
    · calc rA 1 = ⟨(rA 1).won, (rA 1).loss⟩ := rfl
        _ = ⟨14, -16⟩ := by rw [hwon, hloss]
    · calc bA 2 = ⟨(bA 2).won, (bA 2).loss⟩ := rfl
        _ = ⟨16, -14⟩ := by rw [hwon2, hloss2]
  · intro e he
    rw [red_e_eq] at he
    subst he
    rw [red_won_val, red_loss_val]
    have hg1 : ⌊30 / ((10 : ℝ) ^ ((1 : ℝ) / 20) + 1) + 1 / 2⌋ = 14 :=
      Int.floor_eq_iff.2 ⟨by push_cast; linarith, by push_cast; linarith⟩
    have hg2 : ⌊-(30 / ((10 : ℝ) ^ ((1 : ℝ) / 20) + 1) - 30) + 1 / 2⌋ = 16 :=
      Int.floor_eq_iff.2 ⟨by push_cast; linarith, by push_cast; linarith⟩
    constructor
    · exact Or.inl ⟨by linarith, hg1.symm⟩
    · exact Or.inr ⟨by linarith, by rw [hg2]⟩

/-- Witness for C7: the uniqueness part applied at the concrete adjustment
maps, its hypothesis discharged by the theorem's own existence part. -/
theorem predictor_formula_example_witness :
    (fun _ => (⟨14, -16⟩ : Adj)) 1 = (⟨14, -16⟩ : Adj) ∧
    (fun _ => (⟨16, -14⟩ : Adj)) 2 = (⟨16, -14⟩ : Adj) :=
  predictor_formula_example.2.1 (fun _ => ⟨14, -16⟩) (fun _ => ⟨16, -14⟩)
    predictor_formula_example.1

/-- C8: for every partition with non-empty sides, integer ratings and K = 30,
every adjustment the predictor relation allows satisfies onWin ≥ 0 and
onLoss ≤ 0, because the expected score lies strictly between 0 and 1. -/
theorem predicted_delta_signs (redTeam blueTeam : List Nat) (elo : Nat → Int)
    (redAdj blueAdj : Nat → Adj)
    (hr : redTeam ≠ []) (hb : blueTeam ≠ [])
    (h : calculatePreGameEloIs redTeam blueTeam elo 30 redAdj blueAdj) :
    (∀ p ∈ redTeam, 0 ≤ (redAdj p).won ∧ (redAdj p).loss ≤ 0) ∧
    (∀ p ∈ blueTeam, 0 ≤ (blueAdj p).won ∧ (blueAdj p).loss ≤ 0) := by
  obtain ⟨avgRed, avgBlue, -, -, hred, hblue⟩ := h
  have main : ∀ (avgOpp : ℝ) (r : ℤ) (a : Adj), playerAdjIs 30 avgOpp r a →
      0 ≤ a.won ∧ a.loss ≤ 0 := by
    rintro avgOpp r a ⟨e, he, hw, hl⟩
    rw [show ((30 : ℤ) : ℝ) = (30 : ℝ) from by norm_num] at hw hl
    have hpow := ten_rpow_pos ((avgOpp - (r : ℝ)) / 400)
    have he1 : 0 < e := by
      rw [he]
      positivity
    have he2 : e < 1 := by
      rw [he, div_lt_one (by linarith)]
      linarith
    constructor
    · exact pyRoundIs_nonneg (mul_pos (by norm_num) (by linarith)) hw
    · exact pyRoundIs_nonpos (mul_neg_of_pos_of_neg (by norm_num) (by linarith)) hl
  exact ⟨fun p hp => main avgBlue (elo p) _ (hred p hp),
    fun p hp => main avgRed (elo p) _ (hblue p hp)⟩

/-- Witness for C8 at the worked example. -/
theorem predicted_delta_signs_witness :
    (∀ p ∈ [1], 0 ≤ ((fun _ => (⟨14, -16⟩ : Adj)) p).won ∧
      ((fun _ => (⟨14, -16⟩ : Adj)) p).loss ≤ 0) ∧
    (∀ p ∈ [2], 0 ≤ ((fun _ => (⟨16, -14⟩ : Adj)) p).won ∧
      ((fun _ => (⟨16, -14⟩ : Adj)) p).loss ≤ 0) :=
  predicted_delta_signs [1] [2] eloEx (fun _ => ⟨14, -16⟩) (fun _ => ⟨16, -14⟩)
    (by decide) (by decide) calcEx_holds

end OpenMM
